import Mathlib

/-!
Verification development for the shopvox-scrape-api repository.

The pure data-reconciliation and fulfillment-allocation logic of the
repository is shallowly embedded here:

* `classify` — the order-level status ladder (`src/main.py`, lines 360-378);
* `process_order` — the pure aggregation part of `add_to_cart.process_order`
  (`src/main.py`, lines 310-392), with the browser actions (page navigation,
  the vendor processors' side effects) abstracted away; the control flow and
  every value the function computes from its inputs are kept;
* `_normalize_size_label`, `merge` — the size canonicalizer and the raw-row
  merger of `extract_line_items` (`src/main.py`, lines 73-92 and 670-719);
* `normalize_size`, `add_requested_sizes` — the alias expansion and the
  greedy multi-warehouse allocator of `src/sanmar.py` (lines 171-268).

Python floats are modelled as exact rationals (`ℚ`); Python `int()` is the
truncation toward zero `truncInt`; Python `round(x, 2)` is `round2`
(round half to even, as Python's `round` does).  Python dicts are modelled
as insertion-ordered association lists, which matches dict semantics
(first occurrence keeps its position, new keys are appended).
-/

namespace ShopVox

/-! ## String primitives

Python's `str.strip`, `str.lower`, `str.upper` and string comparison,
modelled over the character list of a `String` (ASCII case mapping, the
six ASCII whitespace characters).  They are defined structurally so that
concrete runs reduce inside the kernel. -/

/-- The ASCII whitespace characters stripped by Python's `str.strip()`. -/
def isPySpace (c : Char) : Bool :=
  c == ' ' || c == '\t' || c == '\n' || c == '\r' || c == '\x0b' || c == '\x0c'

/-- Python `str.strip()`. -/
def pyStrip (s : String) : String :=
  String.mk (((s.data.dropWhile isPySpace).reverse.dropWhile isPySpace).reverse)

/-- Python `str.lower()` / `str.casefold()` on ASCII text. -/
def pyLower (s : String) : String := String.mk (s.data.map Char.toLower)

/-- Python `str.upper()` on ASCII text. -/
def pyUpper (s : String) : String := String.mk (s.data.map Char.toUpper)

/-- Lexicographic comparison of character lists by code point (Python's
`<` on strings). -/
def charListLt : List Char → List Char → Bool
  | [], [] => false
  | [], _ :: _ => true
  | _ :: _, [] => false
  | a :: as, b :: bs =>
    if a.toNat < b.toNat then true
    else if b.toNat < a.toNat then false
    else charListLt as bs

/-! ## Rationals: truncation and banker's rounding -/

/-- Python `int()` on a float/rational: truncation toward zero
(`tdiv` is the numerator/denominator division truncating toward zero). -/
def truncInt (q : ℚ) : ℤ := q.num.tdiv q.den

/-- Round half to even to the nearest integer, as Python's `round` does
on exact values. -/
def roundHalfEven (q : ℚ) : ℤ :=
  let f := ⌊q⌋
  let r := q - (f : ℚ)
  if r < 1/2 then f
  else if 1/2 < r then f + 1
  else if f % 2 = 0 then f else f + 1

/-- Python `round(x, 2)`: round to two decimal places. -/
def round2 (q : ℚ) : ℚ :=
  (roundHalfEven (q * 100) : ℚ) / 100

/-- A rational that is an integer multiple of 1/100 (an exact "cent"
value, on which `round2` is the identity). -/
def IsCent (q : ℚ) : Prop := ∃ n : ℤ, q = (n : ℚ) / 100

/-! ## Data model (from `src/schemas.py`) -/

/-- One size/quantity demand entry (`SizeItem` in `src/schemas.py`). -/
structure SizeItem where
  size : String
  quantity : ℚ
deriving DecidableEq, Repr

/-- One order line item (`Item` in `src/schemas.py`). -/
structure Item where
  name : String
  part : String
  color : String
  store : String
  sizes : List SizeItem
  total_quantity : ℚ
deriving DecidableEq, Repr

/-- One sales order (`SalesOrder` in `src/schemas.py`). -/
structure SalesOrder where
  url : String
  id : ℤ
  items : List Item
  total : ℚ
  customer : String
deriving DecidableEq, Repr

/-! ## Order classifier and order processing (from `src/main.py`) -/

/-- A processed-item tag `{"part": ..., "color": ...}` (main.py line 345). -/
structure ProcessedTag where
  part : String
  color : String
deriving DecidableEq, Repr

/-- A skipped-item tag `{"part": ..., "color": ..., "store": ...}`
(main.py lines 348-354). -/
structure SkippedTag where
  part : String
  color : String
  store : String
deriving DecidableEq, Repr

/-- `_normalize_store` (main.py lines 116-117): strip and casefold
(casefold modelled as ASCII lower-casing). -/
def _normalize_store (s : String) : String := pyLower (pyStrip s)

/-- The status ladder of `process_order` (main.py lines 360-378), extracted
as a function of the four aggregates it reads.  `bool(...)` on a list or
dict is non-emptiness. -/
def classify (processed_items : List ProcessedTag)
    (all_out_of_stock : List (String × List String))
    (skipped_custom : List SkippedTag) (any_added_overall : Bool) : String :=
  let has_oos := !all_out_of_stock.isEmpty
  let has_custom := !skipped_custom.isEmpty
  let processed_sanmar := !processed_items.isEmpty
  if !processed_sanmar && has_custom then "custom_store_only"
  else if processed_sanmar && !any_added_overall && has_oos then "out_of_stock"
  else if has_oos && any_added_overall then "partial"
  else if any_added_overall then "success"
  else "no_items_added"

/-- The decision table of spec section 4.4, written from the spec's words:
five rows, evaluated top-to-bottom, first match wins. -/
def specClassify (processed : List ProcessedTag)
    (outOfStock : List (String × List String))
    (skippedCustom : List SkippedTag) (anyAdded : Bool) : String :=
  if processed = [] ∧ skippedCustom ≠ [] then "custom_store_only"
  else if processed ≠ [] ∧ anyAdded = false ∧ outOfStock ≠ [] then "out_of_stock"
  else if outOfStock ≠ [] ∧ anyAdded = true then "partial"
  else if anyAdded = true then "success"
  else "no_items_added"

/-- The keys of `STORE_PROCESSORS` (main.py lines 303-306): the stores with
a registered vendor processor. -/
def STORE_PROCESSOR_KEYS : List String := ["sanmar", "s&s activewear"]

/-- Stable insertion of `x` into `l`: `x` is placed before the first
element `y` with `le x y`. -/
def insertLe {α : Type} (le : α → α → Bool) (x : α) : List α → List α
  | [] => [x]
  | y :: ys => if le x y then x :: y :: ys else y :: insertLe le x ys

/-- Stable insertion sort with respect to the boolean relation `le`
(models Python's stable `list.sort`). -/
def insertionSort {α : Type} (le : α → α → Bool) : List α → List α
  | [] => []
  | x :: xs => insertLe le x (insertionSort le xs)

/-- `order.items.sort(key=lambda it: (it.store).lower(), reverse=True)`
(main.py line 311): stable sort, descending by lower-cased store. -/
def sortItemsDesc (items : List Item) : List Item :=
  insertionSort
    (fun a b => !charListLt (pyLower a.store).data (pyLower b.store).data) items

/-- `by_store` grouping (main.py lines 321-323): group the (sorted) items
by normalized store, keys in first-seen order, groups in item order. -/
def groupByStore (items : List Item) : List (String × List Item) :=
  items.foldl
    (fun acc it =>
      let k := _normalize_store it.store
      if acc.any (fun p => p.1 == k) then
        acc.map (fun p => if p.1 == k then (p.1, p.2 ++ [it]) else p)
      else acc ++ [(k, [it])])
    []

/-- The order-level result (main.py lines 380-392); the `message` string is
determined by `status` and the aggregates and is not modelled separately. -/
structure OrderResult where
  order_id : ℤ
  url : String
  customer : String
  status : String
  out_of_stock : List (String × List String)
  skipped_custom : List SkippedTag
  processed : List ProcessedTag
  any_added_overall : Bool
deriving DecidableEq, Repr

/-- The pure aggregation performed by the live `process_order`
(main.py lines 310-392).  The vendor processors are invoked for every item
of a store with a registered processor, but their `(added, oos)` return
value is discarded by the code (line 344), so `any_added_overall` stays
`false` and `all_out_of_stock` stays empty; `other_items` (line 331)
collects the items of every group whose key is not `"sanmar"`. -/
def process_order (order : SalesOrder) : OrderResult :=
  let items := sortItemsDesc order.items
  let all_out_of_stock : List (String × List String) := []
  let any_added_overall : Bool := false
  let by_store := groupByStore items
  let sanmar_key := "sanmar"
  let other_items := by_store.foldr
    (fun p acc => if p.1 ≠ sanmar_key then p.2 ++ acc else acc) []
  let processed_items := by_store.foldr
    (fun p acc =>
      if p.1 ∈ STORE_PROCESSOR_KEYS then
        p.2.map (fun it => ProcessedTag.mk it.part it.color) ++ acc
      else acc) []
  let skipped_custom := other_items.map
    (fun it => SkippedTag.mk it.part it.color it.store)
  { order_id := order.id
    url := order.url
    customer := order.customer
    status := classify processed_items all_out_of_stock skipped_custom any_added_overall
    out_of_stock := all_out_of_stock
    skipped_custom := skipped_custom
    processed := processed_items
    any_added_overall := any_added_overall }

/-! ## Theorems for the classifier and the order processor -/

/-- Helper: the five possible statuses. -/
def STATUSES : List String :=
  ["custom_store_only", "out_of_stock", "partial", "success", "no_items_added"]

/-- C3: for every combination of inputs the classifier evaluates the
five-row decision table top-to-bottom with first match winning (it equals
the table function written from the spec) and returns exactly one status
from the five-element status set. -/
theorem classify_matches_spec_table (p : List ProcessedTag)
    (oos : List (String × List String)) (s : List SkippedTag) (a : Bool) :
    classify p oos s a = specClassify p oos s a ∧
    classify p oos s a ∈ STATUSES := by
  cases p <;> cases oos <;> cases s <;> cases a <;>
    simp [classify, specClassify, STATUSES]

/-- With an empty out-of-stock map and `any_added = false`, the ladder can
only return `custom_store_only` or `no_items_added`. -/
theorem classify_no_oos_no_added (P : List ProcessedTag) (S : List SkippedTag) :
    classify P [] S false = "custom_store_only" ∨
      classify P [] S false = "no_items_added" := by
  cases P <;> cases S <;> simp [classify]

/-- C2: the live `process_order` never sets `any_added_overall` or
`all_out_of_stock`, so every returned result has `any_added_overall = false`,
an empty `out_of_stock` map, and a status that is either
`"custom_store_only"` or `"no_items_added"`. -/
theorem process_order_status_degenerate (order : SalesOrder) :
    ((process_order order).status = "custom_store_only" ∨
      (process_order order).status = "no_items_added") ∧
    (process_order order).any_added_overall = false ∧
    (process_order order).out_of_stock = [] :=
  ⟨classify_no_oos_no_added _ _, rfl, rfl⟩

/-- The Scenario D order of the spec: one SanMar item whose sizes are in
stock and one item on the unsupported store "etsy". -/
def orderScenarioD : SalesOrder :=
  { url := "https://example.test/so/1"
    id := 1
    items :=
      [ { name := "Tee - PC54", part := "PC54", color := "Red",
          store := "sanmar", sizes := [⟨"L", 5⟩], total_quantity := 5 }
      , { name := "Mug", part := "MUG1", color := "White",
          store := "etsy", sizes := [⟨"qty", 2⟩], total_quantity := 2 } ]
    total := 7
    customer := "ACME" }

/-- C1: evaluating the code at the Scenario D order.  The code returns
status `"no_items_added"` with `any_added_overall = false` (the SanMar item
is processed, but the processor's result is discarded), while the claim and
the spec say the status is `"success"` with `any_added_overall` reflecting
the vendor fills. -/
theorem process_order_scenarioD_no_items_added :
    (process_order orderScenarioD).status = "no_items_added" ∧
    (process_order orderScenarioD).status ≠ "success" ∧
    (process_order orderScenarioD).any_added_overall = false ∧
    (process_order orderScenarioD).processed = [⟨"PC54", "Red"⟩] ∧
    (process_order orderScenarioD).skipped_custom = [⟨"MUG1", "White", "etsy"⟩] := by
  decide

/-- An order with a single item on "S&S Activewear", a store with a
registered processor. -/
def orderOnlySS : SalesOrder :=
  { url := "https://example.test/so/2"
    id := 2
    items :=
      [ { name := "Hoodie - B15453", part := "B15453", color := "Black",
          store := "S&S Activewear", sizes := [⟨"M", 4⟩], total_quantity := 4 } ]
    total := 4
    customer := "ACME" }

/-- C4: evaluating the code at an order with one S&S Activewear item.
The store has a registered processor and the item is processed, yet the
code also routes it to `skipped_custom` (the `other_items` filter at
main.py line 331 excludes only `"sanmar"`), contradicting the claim that
items whose store has a registered processor never appear in
`skipped_custom`. -/
theorem process_order_ss_item_in_skipped :
    (process_order orderOnlySS).processed = [⟨"B15453", "Black"⟩] ∧
    (process_order orderOnlySS).skipped_custom =
      [⟨"B15453", "Black", "S&S Activewear"⟩] := by
  decide

/-! ## The SanMar warehouse allocator (from `src/sanmar.py`) -/

/-- One (warehouse × size) inventory slot as read off the size table by
`build_size_inputs_by_warehouse`: the warehouse name, the parsed available
quantity and whether the input is usable (`committable = false` models a
disabled input, skipped by the allocator at sanmar.py lines 230-238). -/
structure StockCell where
  warehouse : String
  available : ℤ
  committable : Bool
deriving DecidableEq, Repr

/-- A pool map: canonical size key to ordered stock-cell sequence
(the `size_entries` dict of sanmar.py). -/
abbrev SizePool := List (String × List StockCell)

/-- The `alt` alias table of `normalize_size` (sanmar.py lines 186-202). -/
def sizeAliasAlt : List (String × List String) :=
  [ ("XS", ["XSM", "X-SMALL"])
  , ("S", ["SM", "SMALL"])
  , ("M", ["MED", "MEDIUM"])
  , ("L", ["LG", "LARGE"])
  , ("XL", ["X-LARGE", "XLG"])
  , ("2XL", ["XXL", "2X-LARGE"])
  , ("3XL", ["XXXL", "3X-LARGE"])
  , ("4XL", ["XXXXL", "4X-LARGE"])
  , ("5XL", ["XXXXXL", "5X-LARGE"])
  , ("6XL", ["XXXXXXL", "6X-LARGE"])
  , ("7XL", ["XXXXXXXL", "7X-LARGE"])
  , ("8XL", ["XXXXXXXXL", "8X-LARGE"])
  , ("9XL", ["XXXXXXXXXL", "9X-LARGE"])
  , ("ONE SIZE", ["OS", "OSFA"])
  , ("OSFA", ["ONE SIZE", "OS"]) ]

/-- Append the elements of `xs` that are not yet in `acc` (set union,
modelled as a deterministic insertion-ordered list). -/
def dedupAppend (acc : List String) (xs : List String) : List String :=
  xs.foldl (fun a x => if x ∈ a then a else a ++ [x]) acc

/-- `normalize_size` (sanmar.py lines 183-206): the set of alias variants
of a size label, starting from the stripped upper-cased label.  The Python
code returns `list(variants)` of a set; the variant order is modelled as
the deterministic construction order. -/
def normalize_size (label : String) : List String :=
  let u := pyUpper (pyStrip label)
  sizeAliasAlt.foldl
    (fun variants kv =>
      if u = kv.1 ∨ u ∈ kv.2 then dedupAppend variants (kv.1 :: kv.2)
      else variants)
    [u]

/-- Dict lookup `size_entries[key]` / membership `key in size_entries`. -/
def poolLookup (pools : SizePool) (k : String) : Option (List StockCell) :=
  (pools.find? (fun p => p.1 == k)).map (fun p => p.2)

/-- One cell-level fill issued by the allocator: the pool key it was
allocated under, the warehouse, and the written quantity. -/
structure Fill where
  sizeKey : String
  warehouse : String
  amount : ℤ
deriving DecidableEq, Repr

/-- Result of the inner cell loop: the fills issued, the remaining
quantity, and (ghost) the warehouses visited in order. -/
structure CellLoop where
  fills : List Fill
  remaining : ℤ
  visited : List String
deriving DecidableEq, Repr

/-- The inner `for wh_name, input_field, available_qty in size_entries[size_key]`
loop of `add_requested_sizes` (sanmar.py lines 225-253): break when nothing
remains, skip disabled cells and cells with no availability, otherwise fill
`take = min(available, remaining)` and decrement. -/
def allocCells (size_key : String) : List StockCell → ℤ → CellLoop
  | [], r => ⟨[], r, []⟩
  | c :: cs, r =>
    if r ≤ 0 then ⟨[], r, []⟩
    else if c.committable = false then
      let o := allocCells size_key cs r
      ⟨o.fills, o.remaining, c.warehouse :: o.visited⟩
    else if c.available ≤ 0 then
      let o := allocCells size_key cs r
      ⟨o.fills, o.remaining, c.warehouse :: o.visited⟩
    else
      let take := min c.available r
      let o := allocCells size_key cs (r - take)
      ⟨⟨size_key, c.warehouse, take⟩ :: o.fills, o.remaining, c.warehouse :: o.visited⟩

/-- Trace of one demand entry through the `for s in sizes` loop body of
`add_requested_sizes` (sanmar.py lines 208-256).  `sizeLabel` is
`str(s.size)`, `origQty` the entry's quantity, `target` its `int()`
truncation, `skipped` whether the sanitize guard dropped the entry,
`chosenKey` the first alias present in the pool (if any). -/
structure EntryTrace where
  sizeLabel : String
  origQty : ℚ
  target : ℤ
  skipped : Bool
  chosenKey : Option String
  fills : List Fill
  remaining : ℤ
  visited : List String
deriving DecidableEq, Repr

/-- The loop body of `add_requested_sizes` for one demand entry
(sanmar.py lines 208-256). -/
def allocEntry (size_entries : SizePool) (s : SizeItem) : EntryTrace :=
  if truncInt s.quantity ≤ 0 then
    ⟨s.size, s.quantity, truncInt s.quantity, true, none, [], truncInt s.quantity, []⟩
  else
    let target_qty := truncInt s.quantity
    let candidates := normalize_size s.size
    match candidates.find? (fun c => (poolLookup size_entries c).isSome) with
    | none => ⟨s.size, s.quantity, target_qty, false, none, [], target_qty, []⟩
    | some size_key =>
      let cells := (poolLookup size_entries size_key).getD []
      let o := allocCells size_key cells target_qty
      ⟨s.size, s.quantity, target_qty, false, some size_key, o.fills, o.remaining, o.visited⟩

/-- The outcome of `add_requested_sizes` (sanmar.py lines 171-268):
`added_any` and `oos_sizes` are the values the Python function returns;
`trace` is the (ghost) per-entry record of the fills it issued. -/
structure AllocResult where
  added_any : Bool
  oos_sizes : List String
  trace : List EntryTrace
deriving DecidableEq, Repr

/-- `add_requested_sizes` (sanmar.py lines 171-268) over a pool supplied
by `build_size_inputs_by_warehouse`: process each demand entry in order;
`added_any` becomes true as soon as some cell fill is issued; a size label
is appended to `oos_sizes` when its entry was not dropped by the sanitize
guard and its remaining quantity is positive (which covers both the
no-matching-column case, where `remaining = target > 0`, and the
partially-filled case after the cell loop). -/
def add_requested_sizes (sizes : List SizeItem) (size_entries : SizePool) :
    AllocResult :=
  let trace := sizes.map (allocEntry size_entries)
  { added_any := trace.any (fun t => !t.fills.isEmpty)
    oos_sizes := trace.foldr
      (fun t acc => if t.skipped = false ∧ 0 < t.remaining then t.sizeLabel :: acc else acc)
      []
    trace := trace }

/-- All fills issued by an allocation, in issue order. -/
def allFills (r : AllocResult) : List Fill :=
  r.trace.foldr (fun t acc => t.fills ++ acc) []

/-- The total quantity written by a list of fills. -/
def fillsAmountSum (fs : List Fill) : ℤ := (fs.map Fill.amount).sum

/-- The total quantity written by the fills of an allocation. -/
def fillTotal (r : AllocResult) : ℤ := fillsAmountSum (allFills r)

/-- The total requested quantity of a demand list. -/
def demandTotal (sizes : List SizeItem) : ℚ :=
  (sizes.map SizeItem.quantity).sum

/-- The shortfall of one demand entry: its remaining quantity if the entry
was reported in `oos_sizes` (not skipped, positive remainder), else 0. -/
def entryShort (t : EntryTrace) : ℤ :=
  if t.skipped = false ∧ 0 < t.remaining then t.remaining else 0

/-- The total shortfall of the entries reported in `oos_sizes`. -/
def shortfallTotal (r : AllocResult) : ℤ :=
  (r.trace.map entryShort).sum

/-! ## Theorems for the allocator -/

/-- The Scenario A demand: five units of size L. -/
def demandScenarioA : List SizeItem := [⟨"L", 5⟩]

/-- The Scenario A pool: size L backed by warehouse A with 3 available and
warehouse B with 10 available, both committable. -/
def poolScenarioA : SizePool :=
  [("L", [⟨"A", 3, true⟩, ⟨"B", 10, true⟩])]

/-- C5: on demand `[{size: "L", quantity: 5}]` against the pool
`{"L": [(A, 3), (B, 10)]}` the allocator fills the cells first-fit in pool
order once each — 3 into A and 2 into B — returns `added_any = true` and an
empty `oos_sizes` list. -/
theorem alloc_scenarioA :
    add_requested_sizes demandScenarioA poolScenarioA =
      { added_any := true
        oos_sizes := []
        trace := [{ sizeLabel := "L", origQty := 5, target := 5, skipped := false,
                    chosenKey := some "L",
                    fills := [⟨"L", "A", 3⟩, ⟨"L", "B", 2⟩],
                    remaining := 0, visited := ["A", "B"] }] } := by
  decide

/-- C8: the allocation outcome is a function of the demand list and the
pool alone — two runs over an unchanged demand and pool visit the cells in
the same order, select the same pool key for each demand size, and produce
the same fills and the same out-of-stock list. -/
theorem alloc_deterministic (d₁ d₂ : List SizeItem) (p₁ p₂ : SizePool)
    (hd : d₁ = d₂) (hp : p₁ = p₂) :
    (add_requested_sizes d₁ p₁).trace.map EntryTrace.visited =
      (add_requested_sizes d₂ p₂).trace.map EntryTrace.visited ∧
    (add_requested_sizes d₁ p₁).trace.map EntryTrace.chosenKey =
      (add_requested_sizes d₂ p₂).trace.map EntryTrace.chosenKey ∧
    allFills (add_requested_sizes d₁ p₁) = allFills (add_requested_sizes d₂ p₂) ∧
    (add_requested_sizes d₁ p₁).oos_sizes = (add_requested_sizes d₂ p₂).oos_sizes := by
  subst hd; subst hp
  exact ⟨rfl, rfl, rfl, rfl⟩

/-- The cell loop is conservative: the issued fills sum to the decrease of
`remaining`, and `remaining` never leaves `[0, r]` (for `0 ≤ r`). -/
theorem allocCells_spec (k : String) (cells : List StockCell) : ∀ r : ℤ,
    fillsAmountSum (allocCells k cells r).fills =
      r - (allocCells k cells r).remaining ∧
    (allocCells k cells r).remaining ≤ r ∧
    (0 ≤ r → 0 ≤ (allocCells k cells r).remaining) := by
  induction cells with
  | nil =>
    intro r
    refine ⟨?_, le_refl r, fun h => h⟩
    simp [allocCells, fillsAmountSum]
  | cons c cs ih =>
    intro r
    by_cases h1 : r ≤ 0
    · refine ⟨?_, ?_, fun h => ?_⟩
      · simp [allocCells, h1, fillsAmountSum]
      · simp [allocCells, h1]
      · simpa [allocCells, h1] using h
    · by_cases h2 : c.committable = false
      · simpa [allocCells, h1, h2] using ih r
      · by_cases h3 : c.available ≤ 0
        · simpa [allocCells, h1, h2, h3] using ih r
        · have htake : min c.available r ≤ r := min_le_right _ _
          have hpos : 0 < min c.available r :=
            lt_min (lt_of_not_le h3) (lt_of_not_le h1)
          obtain ⟨ihs, ihle, ihnn⟩ := ih (r - min c.available r)
          refine ⟨?_, ?_, fun h => ?_⟩ <;>
            simp only [allocCells, if_neg h1, if_neg h2, if_neg h3]
          · simp only [fillsAmountSum, List.map_cons, List.sum_cons]
            simp only [fillsAmountSum] at ihs
            linarith [ihs]
          · linarith [ihle]
          · exact ihnn (by linarith)

/-- Case analysis of the per-entry loop body: either the sanitize guard
skips the entry, or the entry is processed and the fills it issues sum to
`target - remaining` with `0 ≤ remaining ≤ target`. -/
theorem allocEntry_cases (p : SizePool) (s : SizeItem) :
    (truncInt s.quantity ≤ 0 ∧
      allocEntry p s =
        ⟨s.size, s.quantity, truncInt s.quantity, true, none, [],
          truncInt s.quantity, []⟩) ∨
    (¬ truncInt s.quantity ≤ 0 ∧
      (allocEntry p s).skipped = false ∧
      (allocEntry p s).sizeLabel = s.size ∧
      (allocEntry p s).origQty = s.quantity ∧
      (allocEntry p s).target = truncInt s.quantity ∧
      fillsAmountSum (allocEntry p s).fills =
        truncInt s.quantity - (allocEntry p s).remaining ∧
      0 ≤ (allocEntry p s).remaining ∧
      (allocEntry p s).remaining ≤ truncInt s.quantity) := by
  by_cases h : truncInt s.quantity ≤ 0
  · left
    exact ⟨h, by simp [allocEntry, h]⟩
  · right
    refine ⟨h, ?_⟩
    cases hf : (normalize_size s.size).find?
        (fun c => (poolLookup p c).isSome) with
    | none =>
      refine ⟨?_, ?_, ?_, ?_, ?_, ?_, ?_⟩ <;>
        · simp [allocEntry, h, hf, fillsAmountSum]
          try omega
    | some k =>
      obtain ⟨hs, hle, hnn⟩ :=
        allocCells_spec k ((poolLookup p k).getD []) (truncInt s.quantity)
      refine ⟨?_, ?_, ?_, ?_, ?_, ?_, ?_⟩ <;>
        simp [allocEntry, h, hf]
      · exact hs
      · exact hnn (by omega)
      · exact hle

/-- Per-entry conservation over exact nonnegative integer quantities: the
fills of one entry sum to the entry's quantity minus its shortfall. -/
theorem allocEntry_conservation (p : SizePool) (s : SizeItem)
    (h0 : 0 ≤ s.quantity) (h1 : s.quantity.den = 1) :
    ((fillsAmountSum (allocEntry p s).fills : ℤ) : ℚ) =
      s.quantity - ((entryShort (allocEntry p s) : ℤ) : ℚ) := by
  have hq : (s.quantity.num : ℚ) = s.quantity := (Rat.den_eq_one_iff _).mp h1
  have ht : truncInt s.quantity = s.quantity.num := by
    rw [truncInt, h1]; exact Int.tdiv_one _
  rcases allocEntry_cases p s with ⟨hle, heq⟩ | ⟨hgt, hsk, _, _, _, hsum, hnn, _⟩
  · have hnum : 0 ≤ s.quantity.num := Rat.num_nonneg.mpr h0
    have hnum0 : s.quantity.num = 0 := by omega
    have hq0 : s.quantity = 0 := Rat.num_eq_zero.mp hnum0
    rw [heq]
    simp [fillsAmountSum, entryShort, hq0]
  · rw [hsum, ht]
    have hshort : entryShort (allocEntry p s) =
        if 0 < (allocEntry p s).remaining then (allocEntry p s).remaining else 0 := by
      simp [entryShort, hsk]
    rw [hshort]
    by_cases hrem : 0 < (allocEntry p s).remaining
    · rw [if_pos hrem]
      push_cast
      linarith [hq]
    · rw [if_neg hrem]
      have hrem0 : (allocEntry p s).remaining = 0 := le_antisymm (not_lt.mp hrem) hnn
      rw [hrem0]
      push_cast
      linarith [hq]

/-- Decomposition: the trace of a cons demand list. -/
theorem add_requested_trace_cons (s : SizeItem) (d : List SizeItem) (p : SizePool) :
    (add_requested_sizes (s :: d) p).trace =
      allocEntry p s :: (add_requested_sizes d p).trace := rfl

/-- Decomposition: the fills of a cons demand list. -/
theorem allFills_cons (s : SizeItem) (d : List SizeItem) (p : SizePool) :
    allFills (add_requested_sizes (s :: d) p) =
      (allocEntry p s).fills ++ allFills (add_requested_sizes d p) := rfl

/-- Decomposition: the fill total of a cons demand list. -/
theorem fillTotal_cons (s : SizeItem) (d : List SizeItem) (p : SizePool) :
    fillTotal (add_requested_sizes (s :: d) p) =
      fillsAmountSum (allocEntry p s).fills + fillTotal (add_requested_sizes d p) := by
  simp [fillTotal, allFills_cons, fillsAmountSum]

/-- Decomposition: the shortfall total of a cons demand list. -/
theorem shortfallTotal_cons (s : SizeItem) (d : List SizeItem) (p : SizePool) :
    shortfallTotal (add_requested_sizes (s :: d) p) =
      entryShort (allocEntry p s) + shortfallTotal (add_requested_sizes d p) := by
  simp [shortfallTotal, add_requested_trace_cons]

/-- Decomposition: the demand total of a cons demand list. -/
theorem demandTotal_cons (s : SizeItem) (d : List SizeItem) :
    demandTotal (s :: d) = s.quantity + demandTotal d := by
  simp [demandTotal]

/-- A single entry's shortfall is never negative. -/
theorem entryShort_nonneg (t : EntryTrace) : 0 ≤ entryShort t := by
  by_cases h : t.skipped = false ∧ 0 < t.remaining
  · rw [entryShort, if_pos h]
    exact le_of_lt h.2
  · rw [entryShort, if_neg h]

/-- The total shortfall is never negative. -/
theorem shortfallTotal_nonneg (r : AllocResult) : 0 ≤ shortfallTotal r := by
  refine List.sum_nonneg ?_
  intro x hx
  obtain ⟨t, _, rfl⟩ := List.mem_map.mp hx
  exact entryShort_nonneg t

/-- C6 (amended): over demand lists whose quantities are exact nonnegative
integers — so that Python's `int()` truncation is the identity — the
allocation is conservative: the fills sum to at most the total demand, and
exactly to the total demand minus the total shortfall of the entries
reported in `oos_sizes`. -/
theorem alloc_conservation (d : List SizeItem) (p : SizePool)
    (h : ∀ s ∈ d, 0 ≤ s.quantity ∧ s.quantity.den = 1) :
    (fillTotal (add_requested_sizes d p) : ℚ) ≤ demandTotal d ∧
    (fillTotal (add_requested_sizes d p) : ℚ) =
      demandTotal d - (shortfallTotal (add_requested_sizes d p) : ℚ) := by
  have heq : ∀ dl : List SizeItem,
      (∀ s ∈ dl, 0 ≤ s.quantity ∧ s.quantity.den = 1) →
      (fillTotal (add_requested_sizes dl p) : ℚ) =
        demandTotal dl - (shortfallTotal (add_requested_sizes dl p) : ℚ) := by
    intro dl
    induction dl with
    | nil =>
      intro _
      simp [fillTotal, allFills, fillsAmountSum, demandTotal, shortfallTotal,
        add_requested_sizes]
    | cons s dd ih =>
      intro hh
      have hs := hh s (List.mem_cons_self s dd)
      have ihh := ih (fun x hx => hh x (List.mem_cons_of_mem s hx))
      rw [fillTotal_cons, shortfallTotal_cons, demandTotal_cons]
      push_cast
      push_cast at ihh
      have hentry := allocEntry_conservation p s hs.1 hs.2
      push_cast at hentry
      linarith [ihh, hentry]
  have h2 := heq d h
  refine ⟨?_, h2⟩
  have hnn : (0 : ℚ) ≤ (shortfallTotal (add_requested_sizes d p) : ℚ) := by
    exact_mod_cast shortfallTotal_nonneg _
  linarith [h2, hnn]

/-- Demand with a fractional quantity 1/2 (for the conservation and skip
counterexamples): Python truncates it to 0 and drops the entry. -/
def demandHalf : List SizeItem := [⟨"L", mkRat 1 2⟩]

/-- A pool with ample availability for the fractional-demand counterexample. -/
def poolHalf : SizePool := [("L", [⟨"A", 10, true⟩])]

/-- Demand with a negative quantity next to a positive one. -/
def demandNeg : List SizeItem := [⟨"L", mkRat (-5) 1⟩, ⟨"M", 3⟩]

/-- Pool for the negative-demand counterexample. -/
def poolNeg : SizePool := [("M", [⟨"A", 3, true⟩])]

/-- C6 (counterexample): over arbitrary quantities the claimed conservation
identities fail.  With demand `[{L, 0.5}]` the entry is truncated away, so
the fills sum to 0 while the demand sums to 1/2 and no shortfall is
reported; with demand `[{L, -5}, {M, 3}]` the fills sum to 3 > −2, the
demand total. -/
theorem alloc_conservation_counterexample :
    ¬ ((fillTotal (add_requested_sizes demandHalf poolHalf) : ℚ) =
        demandTotal demandHalf -
          (shortfallTotal (add_requested_sizes demandHalf poolHalf) : ℚ)) ∧
    ¬ ((fillTotal (add_requested_sizes demandNeg poolNeg) : ℚ) ≤
        demandTotal demandNeg) := by
  have h1 : fillTotal (add_requested_sizes demandHalf poolHalf) = 0 := by decide
  have h2 : shortfallTotal (add_requested_sizes demandHalf poolHalf) = 0 := by decide
  have h3 : demandTotal demandHalf = mkRat 1 2 := by
    simp [demandTotal, demandHalf]
  have h4 : fillTotal (add_requested_sizes demandNeg poolNeg) = 3 := by decide
  have h5 : demandTotal demandNeg = mkRat (-5) 1 + 3 := by
    simp [demandTotal, demandNeg]
  constructor
  · rw [h1, h2, h3]
    norm_num [Rat.mkRat_eq_divInt, Rat.divInt_eq_div]
  · rw [h4, h5]
    norm_num [Rat.mkRat_eq_divInt, Rat.divInt_eq_div]

/-- Demand and pool witnessing the conservation theorem: L is partially
fillable (3 of 5), M fully fillable. -/
def demandC6W : List SizeItem := [⟨"L", 5⟩, ⟨"M", 2⟩]

/-- Pool for the conservation witness. -/
def poolC6W : SizePool := [("L", [⟨"A", 3, true⟩]), ("M", [⟨"A", 2, true⟩])]

/-- Witness for C6 at a concrete demand/pool pair. -/
theorem alloc_conservation_witness :
    (∀ s ∈ demandC6W, 0 ≤ s.quantity ∧ s.quantity.den = 1) ∧
    ((fillTotal (add_requested_sizes demandC6W poolC6W) : ℚ) ≤ demandTotal demandC6W ∧
      (fillTotal (add_requested_sizes demandC6W poolC6W) : ℚ) =
        demandTotal demandC6W -
          (shortfallTotal (add_requested_sizes demandC6W poolC6W) : ℚ)) :=
  ⟨by decide, alloc_conservation demandC6W poolC6W (by decide)⟩

/-- Entries of the trace that are reported end up in the `oos_sizes` fold. -/
theorem mem_oos_of_reported (ts : List EntryTrace) (t : EntryTrace)
    (ht : t ∈ ts) (hsk : t.skipped = false) (hrem : 0 < t.remaining) :
    t.sizeLabel ∈ ts.foldr
      (fun u acc =>
        if u.skipped = false ∧ 0 < u.remaining then u.sizeLabel :: acc else acc)
      [] := by
  induction ts with
  | nil => cases ht
  | cons a as ih =>
    rcases List.mem_cons.mp ht with rfl | hmem
    · simp [hsk, hrem]
    · by_cases hc : a.skipped = false ∧ 0 < a.remaining
      · simp only [List.foldr_cons, if_pos hc]
        exact List.mem_cons_of_mem _ (ih hmem)
      · simp only [List.foldr_cons, if_neg hc]
        exact ih hmem

/-- C10 (amended): an entry is skipped exactly when its `int()`-truncated
quantity is ≤ 0; every non-skipped entry with a positive remainder gets its
*original* size label appended to `oos_sizes`, and every non-skipped entry
either issued at least one fill or is reported — no processed entry is
silently neither filled nor reported. -/
theorem alloc_skip_iff_and_filled_or_reported (d : List SizeItem) (p : SizePool) :
    ∀ t ∈ (add_requested_sizes d p).trace,
      (t.skipped = true ↔ truncInt t.origQty ≤ 0) ∧
      (t.skipped = false →
        (0 < t.remaining → t.sizeLabel ∈ (add_requested_sizes d p).oos_sizes) ∧
        (t.fills ≠ [] ∨ t.sizeLabel ∈ (add_requested_sizes d p).oos_sizes)) := by
  intro t ht
  have htrace : (add_requested_sizes d p).trace = d.map (allocEntry p) := rfl
  rw [htrace] at ht
  obtain ⟨s, hsd, rfl⟩ := List.mem_map.mp ht
  have htmem : allocEntry p s ∈ (add_requested_sizes d p).trace := by
    rw [htrace]
    exact List.mem_map_of_mem _ hsd
  have hrep : (allocEntry p s).skipped = false →
      0 < (allocEntry p s).remaining →
      (allocEntry p s).sizeLabel ∈ (add_requested_sizes d p).oos_sizes := by
    intro hsk hrem
    exact mem_oos_of_reported _ _ htmem hsk hrem
  constructor
  · rcases allocEntry_cases p s with ⟨hle, heq⟩ | ⟨hgt, hsk, _, horig, _, _, _, _⟩
    · rw [heq]
      simpa using hle
    · rw [hsk, horig]
      simpa using hgt
  · intro hsk
    refine ⟨hrep hsk, ?_⟩
    rcases allocEntry_cases p s with ⟨hle, heq⟩ | ⟨hgt, hsk2, _, _, _, hsum, hnn, _⟩
    · rw [heq] at hsk
      cases hsk
    · by_cases hrem : 0 < (allocEntry p s).remaining
      · exact Or.inr (hrep hsk hrem)
      · left
        have hrem0 : (allocEntry p s).remaining = 0 :=
          le_antisymm (not_lt.mp hrem) hnn
        intro hfe
        rw [hfe, hrem0] at hsum
        simp [fillsAmountSum] at hsum
        omega

/-- Demand for the skip/report witness: 3 units of S against 1 available. -/
def demandC10W : List SizeItem := [⟨"S", 3⟩]

/-- Pool for the skip/report witness. -/
def poolC10W : SizePool := [("S", [⟨"A", 1, true⟩])]

/-- The trace entry produced by the skip/report witness run. -/
def traceC10W : EntryTrace :=
  ⟨"S", 3, 3, false, some "S", [⟨"S", "A", 1⟩], 2, ["A"]⟩

/-- Witness for C10 at a concrete partially-fillable demand. -/
theorem alloc_skip_report_witness :
    traceC10W ∈ (add_requested_sizes demandC10W poolC10W).trace ∧
    ((traceC10W.skipped = true ↔ truncInt traceC10W.origQty ≤ 0) ∧
      (traceC10W.skipped = false →
        (0 < traceC10W.remaining →
          traceC10W.sizeLabel ∈ (add_requested_sizes demandC10W poolC10W).oos_sizes) ∧
        (traceC10W.fills ≠ [] ∨
          traceC10W.sizeLabel ∈ (add_requested_sizes demandC10W poolC10W).oos_sizes))) :=
  ⟨by decide,
    alloc_skip_iff_and_filled_or_reported demandC10W poolC10W traceC10W (by decide)⟩

/-- Demand with fractional quantity 1/2 for the skip counterexample. -/
def demandFrac : List SizeItem := [⟨"L", mkRat 1 2⟩]

/-- A pool with availability for the skip counterexample. -/
def poolFrac : SizePool := [("L", [⟨"A", 5, true⟩])]

/-- C10 (counterexample): a demand entry with the positive quantity 1/2 is
silently dropped — the allocator truncates it to 0, issues no fill for it
and does not report it in `oos_sizes` — refuting "the allocator skips a
demand entry exactly when its quantity is ≤ 0". -/
theorem alloc_skip_counterexample :
    (0 : ℚ) < mkRat 1 2 ∧
    (add_requested_sizes demandFrac poolFrac).trace =
      [⟨"L", mkRat 1 2, 0, true, none, [], 0, []⟩] ∧
    allFills (add_requested_sizes demandFrac poolFrac) = [] ∧
    (add_requested_sizes demandFrac poolFrac).oos_sizes = [] := by
  refine ⟨by decide, by decide, by decide, by decide⟩

/-- Witness for C8 at the Scenario A inputs. -/
theorem alloc_deterministic_witness :
    (add_requested_sizes demandScenarioA poolScenarioA).trace.map EntryTrace.visited =
      (add_requested_sizes demandScenarioA poolScenarioA).trace.map EntryTrace.visited ∧
    (add_requested_sizes demandScenarioA poolScenarioA).trace.map EntryTrace.chosenKey =
      (add_requested_sizes demandScenarioA poolScenarioA).trace.map EntryTrace.chosenKey ∧
    allFills (add_requested_sizes demandScenarioA poolScenarioA) =
      allFills (add_requested_sizes demandScenarioA poolScenarioA) ∧
    (add_requested_sizes demandScenarioA poolScenarioA).oos_sizes =
      (add_requested_sizes demandScenarioA poolScenarioA).oos_sizes :=
  alloc_deterministic demandScenarioA demandScenarioA poolScenarioA poolScenarioA rfl rfl

/-! ## The raw-row merger of `extract_line_items` (from `src/main.py`) -/

/-- The canonical synonym table of `_normalize_size_label`
(main.py lines 77-91). -/
def canonicalSizeTable : List (String × String) :=
  [ ("XSM", "XS"), ("X-SMALL", "XS")
  , ("SM", "S"), ("SMALL", "S")
  , ("MED", "M"), ("MEDIUM", "M")
  , ("LG", "L"), ("LARGE", "L")
  , ("XLG", "XL"), ("X-LARGE", "XL")
  , ("XXL", "2XL"), ("2X-LARGE", "2XL")
  , ("XXXL", "3XL"), ("3X-LARGE", "3XL")
  , ("XXXXL", "4XL"), ("4X-LARGE", "4XL")
  , ("OS", "ONE SIZE"), ("OSFA", "ONE SIZE"), ("ONE SIZE FITS ALL", "ONE SIZE")
  , ("QTY", "qty") ]

/-- `_normalize_size_label` (main.py lines 73-92): empty input is the
`"qty"` sentinel; otherwise strip, upper-case and collapse through the
synonym table, returning the stripped upper-cased original if unmapped. -/
def _normalize_size_label (label : String) : String :=
  if label = "" then "qty"
  else
    let u := pyUpper (pyStrip label)
    match canonicalSizeTable.find? (fun kv => kv.1 == u) with
    | some kv => kv.2
    | none => u

/-- `_normalize_key_text` (main.py lines 93-94): strip. -/
def _normalize_key_text (s : String) : String := pyStrip s

/-- One raw scraped row fed to the merge step (the entries of the
`line_items` list built at main.py lines 658-668). -/
structure RawRow where
  name : String
  part : String
  color : String
  store : String
  size : String
  quantity : ℚ
deriving DecidableEq, Repr

/-- One canonical per-size entry of a merged line item. -/
structure SizeQty where
  size : String
  quantity : ℚ
deriving DecidableEq, Repr

/-- One merged line item (the dicts emitted at main.py lines 706-717). -/
structure LineItem where
  name : String
  part : String
  color : String
  store : String
  sizes : List SizeQty
  total_quantity : ℚ
deriving DecidableEq, Repr

/-- A merge bucket: the value stored in the `merged` dict before
finalization (main.py lines 679-688), with `sizes_map` the internal
`_sizes_map` insertion-ordered size→quantity dict. -/
structure Bucket where
  name : String
  part : String
  color : String
  store : String
  sizes_map : List (String × ℚ)
  total_quantity : ℚ
deriving DecidableEq, Repr

/-- The merge key `(part_key, color_key, store_key)` (main.py line 678). -/
abbrev MergeKey := String × String × String

/-- `bucket["_sizes_map"][size_label] = bucket["_sizes_map"].get(size_label, 0.0) + qty`
(main.py lines 694-695): update the entry in place if the key exists,
append it otherwise. -/
def addToSizesMap (m : List (String × ℚ)) (k : String) (q : ℚ) :
    List (String × ℚ) :=
  match m with
  | [] => [(k, q)]
  | e :: rest =>
    if e.1 = k then (e.1, e.2 + q) :: rest else e :: addToSizesMap rest k q

/-- Add one row's quantity into a bucket (main.py lines 690-696). -/
def bucketAdd (b : Bucket) (size_label : String) (q : ℚ) : Bucket :=
  { b with
    sizes_map := addToSizesMap b.sizes_map size_label q
    total_quantity := b.total_quantity + q }

/-- The fresh bucket created when a key is first seen
(main.py lines 679-688). -/
def freshBucket (row : RawRow) : Bucket :=
  let part_key := _normalize_key_text row.part
  let color_key := _normalize_key_text row.color
  let store_key := _normalize_key_text row.store
  { name := row.name
    part := part_key
    color := color_key
    store := if store_key = "" then "Custom" else store_key
    sizes_map := []
    total_quantity := 0 }

/-- The merge key of one row (main.py lines 674-678). -/
def mergeKey (row : RawRow) : MergeKey :=
  (_normalize_key_text row.part, _normalize_key_text row.color,
    _normalize_key_text row.store)

/-- Route one row into the bucket dict: update the bucket at its key if
present (dicts keep the position of an existing key), else append a fresh
bucket and update it (main.py lines 678-696). -/
def insertRow (key : MergeKey) (row : RawRow) :
    List (MergeKey × Bucket) → List (MergeKey × Bucket)
  | [] =>
    [(key, bucketAdd (freshBucket row) (_normalize_size_label row.size) row.quantity)]
  | e :: rest =>
    if e.1 = key then
      (e.1, bucketAdd e.2 (_normalize_size_label row.size) row.quantity) :: rest
    else e :: insertRow key row rest

/-- One iteration of the `for item in line_items` merge loop
(main.py lines 673-696). -/
def mergeStep (m : List (MergeKey × Bucket)) (row : RawRow) :
    List (MergeKey × Bucket) :=
  insertRow (mergeKey row) row m

/-- The `_size_sort_key` rank table (main.py lines 699-704). -/
def sizeRankTable : List (String × ℕ) :=
  [ ("XS", 1), ("S", 2), ("M", 3), ("L", 4), ("XL", 5)
  , ("2XL", 6), ("3XL", 7), ("4XL", 8), ("ONE SIZE", 100), ("qty", 999) ]

/-- `_size_sort_key` (main.py lines 699-704): rank-table lookup with
default 50. -/
def _size_sort_key (s : SizeQty) : ℕ :=
  match sizeRankTable.find? (fun kv => kv.1 == s.size) with
  | some kv => kv.2
  | none => 50

/-- `sizes.sort(key=_size_sort_key)` (main.py line 713): Python's stable
sort by rank. -/
def sortSizes (l : List SizeQty) : List SizeQty :=
  insertionSort (fun a b => decide (_size_sort_key a ≤ _size_sort_key b)) l

/-- Finalize one bucket (main.py lines 707-717): round every per-size sum
and the running total to 2 decimal places, emit the sizes sorted by rank. -/
def finalizeBucket (b : Bucket) : LineItem :=
  { name := b.name
    part := b.part
    color := b.color
    store := b.store
    sizes := sortSizes (b.sizes_map.map (fun e => SizeQty.mk e.1 (round2 e.2)))
    total_quantity := round2 b.total_quantity }

/-- The merge of steps 4 and 5 of `extract_line_items`
(main.py lines 670-719): fold the rows into the bucket dict, then
finalize every bucket in insertion order. -/
def merge (rows : List RawRow) : List LineItem :=
  (rows.foldl mergeStep []).map (fun e => finalizeBucket e.2)

/-! ## Theorems for the merger -/

/-- `roundHalfEven` fixes integers. -/
theorem roundHalfEven_intCast (n : ℤ) : roundHalfEven (n : ℚ) = n := by
  unfold roundHalfEven
  simp [Int.floor_intCast]

/-- `roundHalfEven` rounds down below the midpoint. -/
theorem roundHalfEven_eq_floor (q : ℚ) (h : q - (⌊q⌋ : ℚ) < 1/2) :
    roundHalfEven q = ⌊q⌋ := by
  simp only [roundHalfEven]
  rw [if_pos h]

/-- `roundHalfEven` rounds up above the midpoint. -/
theorem roundHalfEven_eq_floor_add_one (q : ℚ) (h : 1/2 < q - (⌊q⌋ : ℚ)) :
    roundHalfEven q = ⌊q⌋ + 1 := by
  simp only [roundHalfEven]
  rw [if_neg (not_lt.mpr (le_of_lt h)), if_pos h]

/-- `round2` is the identity on exact cent values. -/
theorem round2_cent (q : ℚ) (h : IsCent q) : round2 q = q := by
  obtain ⟨n, rfl⟩ := h
  unfold round2
  have h100 : (n : ℚ) / 100 * 100 = (n : ℚ) := by
    field_simp
  rw [h100, roundHalfEven_intCast]

/-- Cent values are closed under addition. -/
theorem IsCent.add {a b : ℚ} (ha : IsCent a) (hb : IsCent b) : IsCent (a + b) := by
  obtain ⟨m, rfl⟩ := ha
  obtain ⟨n, rfl⟩ := hb
  exact ⟨m + n, by push_cast; ring⟩

/-- Zero is a cent value. -/
theorem IsCent.zero : IsCent 0 := ⟨0, by norm_num⟩

/-- Inserting into the ordered list keeps the multiset of elements. -/
theorem insertLe_perm {α : Type} (le : α → α → Bool) (x : α) (l : List α) :
    (insertLe le x l).Perm (x :: l) := by
  induction l with
  | nil => exact List.Perm.refl [x]
  | cons y ys ih =>
    unfold insertLe
    by_cases h : le x y
    · rw [if_pos h]
    · rw [if_neg h]
      exact (List.Perm.cons y ih).trans (List.Perm.swap x y ys)

/-- The stable insertion sort is a permutation of its input. -/
theorem insertionSort_perm {α : Type} (le : α → α → Bool) (l : List α) :
    (insertionSort le l).Perm l := by
  induction l with
  | nil => exact List.Perm.refl []
  | cons x xs ih =>
    exact (insertLe_perm le x (insertionSort le xs)).trans (List.Perm.cons x ih)

/-- C9: merging is additive over duplicate rows after size normalization —
two raw rows with the same normalized (part, color, store) key whose size
labels normalize to the same canonical key merge into one LineItem whose
single entry for that size carries the sum of the two quantities (within
rounding). -/
theorem merge_additive (a b : RawRow)
    (hp : _normalize_key_text a.part = _normalize_key_text b.part)
    (hc : _normalize_key_text a.color = _normalize_key_text b.color)
    (hs : _normalize_key_text a.store = _normalize_key_text b.store)
    (hz : _normalize_size_label a.size = _normalize_size_label b.size) :
    merge [a, b] =
      [{ name := a.name
         part := _normalize_key_text a.part
         color := _normalize_key_text a.color
         store := if _normalize_key_text a.store = "" then "Custom"
                  else _normalize_key_text a.store
         sizes := [⟨_normalize_size_label a.size, round2 (a.quantity + b.quantity)⟩]
         total_quantity := round2 (a.quantity + b.quantity) }] := by
  have hkey : mergeKey b = mergeKey a := by
    simp [mergeKey, hp, hc, hs]
  simp [merge, mergeStep, insertRow, hkey, freshBucket, bucketAdd, addToSizesMap,
    hz, finalizeBucket, sortSizes, insertionSort, insertLe, hp, hc, hs, add_assoc]

/-- The Scenario C row with raw size label "SM". -/
def rowSM : RawRow := ⟨"Port and Co Tee - PC54", "PC54", "Red", "sanmar", "SM", 2⟩

/-- The Scenario C row with raw size label "Small". -/
def rowSmall : RawRow := ⟨"Port and Co Tee - PC54", "PC54", "Red", "sanmar", "Small", 3⟩

/-- Witness for C9: Scenario C — the "SM"/2 and "Small"/3 rows merge into
one LineItem with `sizes = [{size: "S", quantity: 5}]` and total 5. -/
theorem merge_additive_witness :
    (_normalize_key_text rowSM.part = _normalize_key_text rowSmall.part ∧
      _normalize_key_text rowSM.color = _normalize_key_text rowSmall.color ∧
      _normalize_key_text rowSM.store = _normalize_key_text rowSmall.store ∧
      _normalize_size_label rowSM.size = _normalize_size_label rowSmall.size) ∧
    merge [rowSM, rowSmall] =
      [{ name := "Port and Co Tee - PC54", part := "PC54", color := "Red",
         store := "sanmar", sizes := [⟨"S", 5⟩], total_quantity := 5 }] := by
  refine ⟨⟨by decide, by decide, by decide, by decide⟩, ?_⟩
  rw [merge_additive rowSM rowSmall (by decide) (by decide) (by decide) (by decide)]
  have hq : round2 (rowSM.quantity + rowSmall.quantity) = 5 := by
    have h23 : rowSM.quantity + rowSmall.quantity = (5 : ℚ) := by
      show (2 : ℚ) + 3 = 5
      norm_num
    rw [h23, round2_cent 5 ⟨500, by norm_num⟩]
  rw [hq]
  have h1 : _normalize_key_text rowSM.part = "PC54" := by decide
  have h2 : _normalize_key_text rowSM.color = "Red" := by decide
  have h3 : _normalize_key_text rowSM.store = "sanmar" := by decide
  have h4 : _normalize_size_label rowSM.size = "S" := by decide
  rw [h1, h2, h3, h4]
  decide

/-- The sum of the values of a sizes map. -/
def sumVals (m : List (String × ℚ)) : ℚ := (m.map Prod.snd).sum

/-- The sum of a cons sizes map. -/
theorem sumVals_cons (e : String × ℚ) (l : List (String × ℚ)) :
    sumVals (e :: l) = e.2 + sumVals l := by
  simp [sumVals]

/-- Adding a quantity into the sizes map adds it to the value sum. -/
theorem addToSizesMap_sum (m : List (String × ℚ)) (k : String) (q : ℚ) :
    sumVals (addToSizesMap m k q) = sumVals m + q := by
  induction m with
  | nil => simp [addToSizesMap, sumVals]
  | cons e rest ih =>
    by_cases h : e.1 = k
    · rw [addToSizesMap, if_pos h, sumVals_cons, sumVals_cons]
      ring
    · rw [addToSizesMap, if_neg h, sumVals_cons, sumVals_cons, ih]
      ring

/-- Key membership after a sizes-map update. -/
theorem mem_addToSizesMap_keys (m : List (String × ℚ)) (k q x) :
    x ∈ (addToSizesMap m k q).map Prod.fst ↔ x ∈ m.map Prod.fst ∨ x = k := by
  induction m with
  | nil => simp [addToSizesMap]
  | cons e rest ih =>
    by_cases h : e.1 = k
    · rw [addToSizesMap, if_pos h]
      simp [h]
      tauto
    · rw [addToSizesMap, if_neg h]
      simp [ih]
      tauto

/-- A sizes-map update keeps the keys duplicate-free. -/
theorem addToSizesMap_keys_nodup (m : List (String × ℚ)) (k : String) (q : ℚ)
    (h : (m.map Prod.fst).Nodup) :
    ((addToSizesMap m k q).map Prod.fst).Nodup := by
  induction m with
  | nil => simp [addToSizesMap]
  | cons e rest ih =>
    rw [List.map_cons, List.nodup_cons] at h
    by_cases he : e.1 = k
    · rw [addToSizesMap, if_pos he]
      simpa [List.nodup_cons] using h
    · rw [addToSizesMap, if_neg he]
      rw [List.map_cons, List.nodup_cons]
      refine ⟨?_, ih h.2⟩
      intro hmem
      rcases (mem_addToSizesMap_keys rest k q e.1).mp hmem with hm | hk
      · exact h.1 hm
      · exact he hk

/-- A sizes-map update keeps every value an exact cent value. -/
theorem addToSizesMap_cent (m : List (String × ℚ)) (k : String) (q : ℚ)
    (hm : ∀ e ∈ m, IsCent e.2) (hq : IsCent q) :
    ∀ e ∈ addToSizesMap m k q, IsCent e.2 := by
  induction m with
  | nil =>
    intro e he
    simp [addToSizesMap] at he
    rw [he]
    exact hq
  | cons f rest ih =>
    intro e he
    by_cases hf : f.1 = k
    · rw [addToSizesMap, if_pos hf] at he
      rcases List.mem_cons.mp he with rfl | he2
      · exact (hm f (List.mem_cons_self f rest)).add hq
      · exact hm e (List.mem_cons_of_mem f he2)
    · rw [addToSizesMap, if_neg hf] at he
      rcases List.mem_cons.mp he with rfl | he2
      · exact hm e (List.mem_cons_self e rest)
      · exact ih (fun x hx => hm x (List.mem_cons_of_mem f hx)) e he2

/-- The invariant maintained for every bucket of the merge dict: the
running total equals the sum of the sizes-map values, the size keys are
duplicate-free, and every value is an exact cent value. -/
def BucketInv (b : Bucket) : Prop :=
  b.total_quantity = sumVals b.sizes_map ∧
  (b.sizes_map.map Prod.fst).Nodup ∧
  ∀ e ∈ b.sizes_map, IsCent e.2

/-- Adding a cent quantity into a bucket preserves the invariant. -/
theorem bucketAdd_inv (b : Bucket) (l : String) (q : ℚ)
    (h : BucketInv b) (hq : IsCent q) : BucketInv (bucketAdd b l q) := by
  obtain ⟨h1, h2, h3⟩ := h
  refine ⟨?_, ?_, ?_⟩
  · simp only [bucketAdd]
    rw [addToSizesMap_sum, h1]
  · simp only [bucketAdd]
    exact addToSizesMap_keys_nodup _ _ _ h2
  · simp only [bucketAdd]
    exact addToSizesMap_cent _ _ _ h3 hq

/-- Fresh buckets satisfy the invariant. -/
theorem freshBucket_inv (row : RawRow) : BucketInv (freshBucket row) := by
  refine ⟨?_, ?_, ?_⟩ <;> simp [freshBucket, sumVals]

/-- Routing one cent-valued row into the dict preserves the invariant of
every bucket. -/
theorem insertRow_inv (key : MergeKey) (row : RawRow)
    (hq : IsCent row.quantity) :
    ∀ m : List (MergeKey × Bucket), (∀ e ∈ m, BucketInv e.2) →
      ∀ e ∈ insertRow key row m, BucketInv e.2 := by
  intro m
  induction m with
  | nil =>
    intro _ e he
    simp [insertRow] at he
    rw [he]
    exact bucketAdd_inv _ _ _ (freshBucket_inv row) hq
  | cons f rest ih =>
    intro hm e he
    by_cases hf : f.1 = key
    · rw [insertRow, if_pos hf] at he
      rcases List.mem_cons.mp he with rfl | he2
      · exact bucketAdd_inv _ _ _ (hm f (List.mem_cons_self f rest)) hq
      · exact hm e (List.mem_cons_of_mem f he2)
    · rw [insertRow, if_neg hf] at he
      rcases List.mem_cons.mp he with rfl | he2
      · exact hm e (List.mem_cons_self e rest)
      · exact ih (fun x hx => hm x (List.mem_cons_of_mem f hx)) e he2

/-- Folding cent-valued rows through the merge keeps every bucket's
invariant. -/
theorem mergeFold_inv (rows : List RawRow) :
    ∀ m : List (MergeKey × Bucket),
      (∀ r ∈ rows, IsCent r.quantity) → (∀ e ∈ m, BucketInv e.2) →
      ∀ e ∈ rows.foldl mergeStep m, BucketInv e.2 := by
  induction rows with
  | nil =>
    intro m _ hm e he
    simpa using hm e (by simpa using he)
  | cons r rest ih =>
    intro m hr hm e he
    rw [List.foldl_cons] at he
    exact ih _ (fun x hx => hr x (List.mem_cons_of_mem r hx))
      (insertRow_inv (mergeKey r) r (hr r (List.mem_cons_self r rest)) m hm) e he

/-- The sum of cent values is a cent value. -/
theorem sumVals_cent (m : List (String × ℚ)) (h : ∀ e ∈ m, IsCent e.2) :
    IsCent (sumVals m) := by
  induction m with
  | nil => exact IsCent.zero
  | cons e rest ih =>
    rw [sumVals_cons]
    exact (h e (List.mem_cons_self e rest)).add
      (ih (fun x hx => h x (List.mem_cons_of_mem e hx)))

/-- Finalizing a bucket with the invariant yields a LineItem whose total
equals the sum of the emitted per-size quantities and whose size keys are
duplicate-free. -/
theorem finalizeBucket_spec (b : Bucket) (h : BucketInv b) :
    (finalizeBucket b).total_quantity =
      ((finalizeBucket b).sizes.map SizeQty.quantity).sum ∧
    ((finalizeBucket b).sizes.map SizeQty.size).Nodup := by
  obtain ⟨h1, h2, h3⟩ := h
  have hperm :
      (sortSizes (b.sizes_map.map (fun e => SizeQty.mk e.1 (round2 e.2)))).Perm
        (b.sizes_map.map (fun e => SizeQty.mk e.1 (round2 e.2))) :=
    insertionSort_perm _ _
  have hqmap :
      (b.sizes_map.map (fun e => SizeQty.mk e.1 (round2 e.2))).map SizeQty.quantity
        = b.sizes_map.map Prod.snd := by
    rw [List.map_map]
    exact List.map_congr_left (fun e he => round2_cent e.2 (h3 e he))
  have hsmap :
      (b.sizes_map.map (fun e => SizeQty.mk e.1 (round2 e.2))).map SizeQty.size
        = b.sizes_map.map Prod.fst := by
    rw [List.map_map]
    rfl
  constructor
  · show round2 b.total_quantity =
      ((sortSizes (b.sizes_map.map (fun e => SizeQty.mk e.1 (round2 e.2)))).map
        SizeQty.quantity).sum
    rw [(hperm.map SizeQty.quantity).sum_eq, hqmap, h1]
    exact round2_cent _ (sumVals_cent _ h3)
  · show ((sortSizes _).map SizeQty.size).Nodup
    rw [(hperm.map SizeQty.size).nodup_iff, hsmap]
    exact h2

/-- C7 (amended): for rows whose quantities are exact cent values (integer
multiples of 0.01, so that `round(x, 2)` is exact), every LineItem emitted
by the merger has `total_quantity` equal to the sum of its per-size
quantities, and its sizes list has no duplicate size keys. -/
theorem merge_total_eq_sum_sizes (rows : List RawRow)
    (h : ∀ r ∈ rows, IsCent r.quantity) :
    ∀ li ∈ merge rows,
      li.total_quantity = (li.sizes.map SizeQty.quantity).sum ∧
      (li.sizes.map SizeQty.size).Nodup := by
  intro li hli
  unfold merge at hli
  obtain ⟨e, he, rfl⟩ := List.mem_map.mp hli
  exact finalizeBucket_spec e.2 (mergeFold_inv rows [] h (by simp) e he)

/-- A witness row with an integer quantity. -/
def rowC7a : RawRow := ⟨"N", "P1", "Blue", "sanmar", "L", 4⟩

/-- A witness row with quantity 1.5, an exact cent value. -/
def rowC7b : RawRow := ⟨"N", "P1", "Blue", "sanmar", "XL", mkRat 3 2⟩

/-- Witness for C7 at two concrete cent-valued rows. -/
theorem merge_total_witness :
    (∀ r ∈ [rowC7a, rowC7b], IsCent r.quantity) ∧
    ∀ li ∈ merge [rowC7a, rowC7b],
      li.total_quantity = (li.sizes.map SizeQty.quantity).sum ∧
      (li.sizes.map SizeQty.size).Nodup := by
  have h : ∀ r ∈ [rowC7a, rowC7b], IsCent r.quantity := by
    intro r hr
    rcases List.mem_cons.mp hr with rfl | hr2
    · refine ⟨400, ?_⟩
      show (4 : ℚ) = (400 : ℚ) / 100
      norm_num
    rcases List.mem_cons.mp hr2 with rfl | hr3
    · refine ⟨150, ?_⟩
      show mkRat 3 2 = (150 : ℚ) / 100
      rw [Rat.mkRat_eq_divInt, Rat.divInt_eq_div]
      norm_num
    · cases hr3
  exact ⟨h, merge_total_eq_sum_sizes [rowC7a, rowC7b] h⟩

/-- A counterexample row: size S with quantity 1/250 = 0.004. -/
def rowTinyS : RawRow := ⟨"N", "P", "C", "S", "S", mkRat 1 250⟩

/-- A counterexample row: size M with quantity 1/250 = 0.004. -/
def rowTinyM : RawRow := ⟨"N", "P", "C", "S", "M", mkRat 1 250⟩

/-- C7 (counterexample): with quantities that are not exact cent values
the rounding of per-size sums and of the running total disagree — two rows
of 0.004 on different sizes merge into a LineItem with
`total_quantity = round(0.008, 2) = 0.01` but sizes
`[round(0.004, 2), round(0.004, 2)] = [0, 0]`, so the claimed invariant
`totalQuantity == sum(sizes[].quantity)` fails on the code. -/
theorem merge_total_counterexample :
    ¬ ∀ li ∈ merge [rowTinyS, rowTinyM],
        li.total_quantity = (li.sizes.map SizeQty.quantity).sum := by
  intro hall
  have hmerge : merge [rowTinyS, rowTinyM] =
      [{ name := "N", part := "P", color := "C", store := "S"
         sizes := [⟨"S", round2 (mkRat 1 250)⟩, ⟨"M", round2 (mkRat 1 250)⟩]
         total_quantity := round2 (0 + mkRat 1 250 + mkRat 1 250) }] := rfl
  have hli := hall
    { name := "N", part := "P", color := "C", store := "S"
      sizes := [⟨"S", round2 (mkRat 1 250)⟩, ⟨"M", round2 (mkRat 1 250)⟩]
      total_quantity := round2 (0 + mkRat 1 250 + mkRat 1 250) }
    (by rw [hmerge]; exact List.mem_singleton_self _)
  have hmk : (mkRat 1 250 : ℚ) = 1/250 := by
    rw [Rat.mkRat_eq_divInt, Rat.divInt_eq_div]
    norm_num
  have e1 : round2 (mkRat 1 250) = 0 := by
    rw [hmk]
    unfold round2
    have hx : (1 : ℚ)/250 * 100 = 2/5 := by norm_num
    rw [hx]
    have hf : ⌊(2 : ℚ)/5⌋ = 0 := by norm_num [Int.floor_eq_iff]
    rw [roundHalfEven_eq_floor _ (by rw [hf]; norm_num), hf]
    norm_num
  have e2 : round2 (0 + mkRat 1 250 + mkRat 1 250) = 1/100 := by
    rw [hmk]
    have hx : (0 : ℚ) + 1/250 + 1/250 = 1/125 := by norm_num
    rw [hx]
    unfold round2
    have hy : (1 : ℚ)/125 * 100 = 4/5 := by norm_num
    rw [hy]
    have hf : ⌊(4 : ℚ)/5⌋ = 0 := by norm_num [Int.floor_eq_iff]
    rw [roundHalfEven_eq_floor_add_one _ (by rw [hf]; norm_num), hf]
    norm_num
  simp only [List.map_cons, List.map_nil, List.sum_cons, List.sum_nil] at hli
  rw [e1, e2] at hli
  norm_num at hli

end ShopVox
